import Mathlib

/-!
Verification of the delta-update resolver and applier in
`src/installer/diff.rs` (the `VersionDiff` enum and its methods).

The file system is modelled as an association list from path strings to file
contents.  The external collaborators (the curl `Downloader`, the package
`Installer` and the `hpatchz` patch engine) are oracles collected in an `Env`
record; the code under verification only observes their results, exactly as
the Rust code does through their narrow interfaces.  File contents are treated
as ASCII, so one char of a Lean `String` stands for one byte of a Rust `str`.
-/

set_option autoImplicit false

namespace AnimeGameCore

/-- Paths in the modelled file system are plain strings, as in the Rust code
where every file location is built by string formatting. -/
abbrev FPath := String

/-- Association-list file system mapping a path to the content stored there. -/
structure FS where
  entries : List (FPath × String)
deriving DecidableEq, Repr

/-- Look a path up in an association list of files. -/
def lookupA : List (FPath × String) → FPath → Option String
  | [], _ => none
  | (q, c) :: rest, p => if q = p then some c else lookupA rest p

/-- Remove every entry for a path from an association list of files. -/
def removeA : List (FPath × String) → FPath → List (FPath × String)
  | [], _ => []
  | (q, c) :: rest, p => if q = p then removeA rest p else (q, c) :: removeA rest p

/-- Content stored at a path, when the file exists. -/
def FS.read (fs : FS) (p : FPath) : Option String := lookupA fs.entries p

/-- Delete a path unconditionally. -/
def FS.remove (fs : FS) (p : FPath) : FS := ⟨removeA fs.entries p⟩

/-- Create or overwrite a file. -/
def FS.write (fs : FS) (p : FPath) (c : String) : FS := ⟨(p, c) :: removeA fs.entries p⟩

/-- Model of `std::fs::remove_file`: fails (`none`) when the file is absent. -/
def FS.removeFile (fs : FS) (p : FPath) : Option FS :=
  match fs.read p with
  | none => none
  | some _ => some (fs.remove p)

/-- Model of `std::fs::rename`: moves `src` over `dst`, overwriting `dst`;
fails when `src` does not exist. -/
def FS.rename (fs : FS) (src dst : FPath) : Option FS :=
  match fs.read src with
  | none => none
  | some c => some ((fs.remove src).write dst c)

/-- Byte slice `s[a..b]` of a Rust string: `none` exactly when Rust would
panic, i.e. when the start is beyond the end or the end beyond the length
(contents are ASCII, so a char is a byte).  The Rust source computes the end
bound as `file.len() - 2`; `Nat` subtraction truncates at zero exactly where
Rust would panic on the slice anyway, so `none` coincides with a panic. -/
def sliceStr (s : String) (a b : Nat) : Option String :=
  if a ≤ b ∧ b ≤ s.data.length then some ⟨(s.data.drop a).take (b - a)⟩ else none

/-- Helper for `rustLines`: walks the characters keeping the current line
(reversed) in `acc`. -/
def rustLinesAux : List Char → List Char → List String
  | [], acc => if acc.isEmpty then [] else [⟨acc.reverse⟩]
  | c :: rest, acc =>
    if c = '\n' then
      (⟨(if acc.head? = some '\r' then acc.tail else acc).reverse⟩ : String)
        :: rustLinesAux rest []
    else
      rustLinesAux rest (c :: acc)

/-- Model of Rust `str::lines`: split at each newline, strip a carriage return
standing right before a newline, and do not yield a final empty segment. -/
def rustLines (s : String) : List String := rustLinesAux s.data []

/-- Modelled from the spec: `crate::version::Version` is not part of the
reviewed sources; versions are opaque records carried through the resolution
variants and never inspected by this module. -/
structure Version where
  major : Nat
  minor : Nat
  patch : Nat
deriving DecidableEq, Repr

/-- Mirror of `DiffDownloadError`; curl errors and patch failures carry their
message as a string. -/
inductive DiffDownloadError where
  | AlreadyLatest
  | Outdated
  | Curl (e : String)
  | HdiffPatch (detail : String)
  | PathNotSpecified
deriving DecidableEq, Repr

/-- Mirror of the `VersionDiff` enum; sizes are byte counts. -/
inductive VersionDiff where
  | Latest (v : Version)
  | Diff (current latest : Version) (url : String)
      (download_size unpacked_size : Nat) (unpacking_path : Option String)
  | Outdated (current latest : Version)
  | NotInstalled (latest : Version) (url : String)
      (download_size unpacked_size : Nat) (unpacking_path : Option String)
deriving DecidableEq, Repr

/-- Outcome of a file-system transaction: normal return, error return, or a
Rust panic raised by `expect`.  The file system at the moment the function
stops is carried along so that the theorems can speak about the effects. -/
inductive TxResult where
  | ok (fs : FS)
  | err (e : DiffDownloadError) (fs : FS)
  | panic (msg : String) (fs : FS)
deriving DecidableEq, Repr

/-- Oracles for the external collaborators (spec section 6).  `dlNew url` and
`instNew url` return `some message` when constructing the `Downloader` or the
`Installer` fails with a curl error; `dlRun url path` is the result of
`downloader.download_to`.  `instRun url temp path fs` is the file-system
effect of `installer.install` (after `set_temp_folder temp` when present);
it reports no error, matching the Rust interface.  `engine file patchFile
output fs` models `hpatchz::patch`: on `ok content` the output file gets that
content, on `error detail` the patch failed; a failing engine is modelled as
leaving the file system unchanged, as a stub engine does.  Progress callbacks
carry no state and are not modelled. -/
structure Env where
  dlNew : String → Option String
  dlRun : String → String → Option String
  instNew : String → Option String
  instRun : String → Option String → String → FS → FS
  engine : String → String → String → FS → Except String String

/-- Mirror of `VersionDiff::get_size`. -/
def VersionDiff.get_size : VersionDiff → Option (Nat × Nat)
  | .Latest _ => none
  | .Outdated _ _ => none
  | .Diff _ _ _ ds us _ => some (ds, us)
  | .NotInstalled _ _ ds us _ => some (ds, us)

/-- Mirror of `VersionDiff::unpacking_path`. -/
def VersionDiff.unpacking_path : VersionDiff → Option String
  | .Latest _ => none
  | .Outdated _ _ => none
  | .Diff _ _ _ _ _ up => up
  | .NotInstalled _ _ _ _ up => up

/-- Mirror of `VersionDiff::download_to`: rejects `Latest`/`Outdated`, then
delegates to the `Downloader` oracle, wrapping its failures in `Curl`. -/
def VersionDiff.download_to (env : Env) (d : VersionDiff) (path : String) :
    Except DiffDownloadError Unit :=
  match d with
  | .Latest _ => .error .AlreadyLatest
  | .Outdated _ _ => .error .Outdated
  | .Diff _ _ url _ _ _ =>
    match env.dlNew url with
    | some e => .error (.Curl e)
    | none =>
      match env.dlRun url path with
      | some e => .error (.Curl e)
      | none => .ok ()
  | .NotInstalled _ url _ _ _ =>
    match env.dlNew url with
    | some e => .error (.Curl e)
    | none =>
      match env.dlRun url path with
      | some e => .error (.Curl e)
      | none => .ok ()

/-- Path of the hdiff manifest inside the destination. -/
def hdiffName (path : String) : String := path ++ "/hdifffiles.txt"

/-- Path of the stale-file manifest inside the destination. -/
def deleteName (path : String) : String := path ++ "/deletefiles.txt"

/-- Path of the original file of one hdiff entry (the Rust
`format!("\x7b\x7d/\x7b\x7d", path, rel)`). -/
def origPath (path rel : String) : String := path ++ "/" ++ rel

/-- Path of the `.hdiff` patch file of one entry. -/
def patchPath (path rel : String) : String := origPath path rel ++ ".hdiff"

/-- Path of the `.hdiff_patched` temporary output of one entry. -/
def outPath (path rel : String) : String := origPath path rel ++ ".hdiff_patched"

/-- Core of the patch-application pass, one manifest line at a time: slice
the payload out of the line (panicking as Rust does when the line is too
short), run the patch engine, then remove the original, remove the patch and
rename the output over the original — each `expect` modelled as a panic. -/
def applyHdiffLines (env : Env) (path : String) : List String → FS → TxResult
  | [], fs => .ok fs
  | line :: rest, fs =>
    match sliceStr line 16 (line.data.length - 2) with
    | none => .panic "byte index out of range" fs
    | some rel =>
      match env.engine (origPath path rel) (patchPath path rel) (outPath path rel) fs with
      | .error e => .err (.HdiffPatch e) fs
      | .ok content =>
        match (fs.write (outPath path rel) content).removeFile (origPath path rel) with
        | none => .panic ("Failed to remove hdiff patch: " ++ origPath path rel)
            (fs.write (outPath path rel) content)
        | some fs2 =>
          match fs2.removeFile (patchPath path rel) with
          | none => .panic ("Failed to remove hdiff patch: " ++ patchPath path rel) fs2
          | some fs3 =>
            match fs3.rename (outPath path rel) (origPath path rel) with
            | none => .panic ("Failed to rename hdiff patch: " ++ origPath path rel) fs3
            | some fs4 => applyHdiffLines env path rest fs4

/-- Patch-application pass of `install_to_by`: a missing manifest is not an
error; after all entries succeed the manifest itself is removed. -/
def hdiffPass (env : Env) (path : String) (fs : FS) : TxResult :=
  match fs.read (hdiffName path) with
  | none => .ok fs
  | some files =>
    match applyHdiffLines env path (rustLines files) fs with
    | .ok fs2 =>
      match fs2.removeFile (hdiffName path) with
      | none => .panic "Failed to remove hdifffiles.txt" fs2
      | some fs3 => .ok fs3
    | r => r

/-- Core of the stale-file pass: `remove_file` is called on the raw manifest
line, exactly as in the Rust source (which does not join it with the
destination path). -/
def applyDeleteLines : List String → FS → TxResult
  | [], fs => .ok fs
  | f :: rest, fs =>
    match fs.removeFile f with
    | none => .panic ("Failed to remove outdated file: " ++ f) fs
    | some fs2 => applyDeleteLines rest fs2

/-- Stale-file cleanup pass of `install_to_by`: a missing manifest is not an
error; after all removals succeed the manifest itself is removed. -/
def deletePass (path : String) (fs : FS) : TxResult :=
  match fs.read (deleteName path) with
  | none => .ok fs
  | some files =>
    match applyDeleteLines (rustLines files) fs with
    | .ok fs2 =>
      match fs2.removeFile (deleteName path) with
      | none => .panic "Failed to remove deletefiles.txt" fs2
      | some fs3 => .ok fs3
    | r => r

/-- Shared tail of `install_to_by` for the two downloadable variants: build
the installer, run it, then the two passes in order. -/
def installTo (env : Env) (url path : String) (temp : Option String) (fs : FS) : TxResult :=
  match env.instNew url with
  | some e => .err (.Curl e) fs
  | none =>
    match hdiffPass env path (env.instRun url temp path fs) with
    | .ok fs2 => deletePass path fs2
    | r => r

/-- Mirror of `VersionDiff::install_to_by`. -/
def VersionDiff.install_to_by (env : Env) (d : VersionDiff) (path : String)
    (temp : Option String) (fs : FS) : TxResult :=
  match d with
  | .Latest _ => .err .AlreadyLatest fs
  | .Outdated _ _ => .err .Outdated fs
  | .Diff _ _ url _ _ _ => installTo env url path temp fs
  | .NotInstalled _ url _ _ _ => installTo env url path temp fs

/-- Mirror of `VersionDiff::install_to`. -/
def VersionDiff.install_to (env : Env) (d : VersionDiff) (path : String) (fs : FS) : TxResult :=
  match d with
  | .Latest _ => .err .AlreadyLatest fs
  | .Outdated _ _ => .err .Outdated fs
  | .Diff c l url ds us up =>
    (VersionDiff.Diff c l url ds us up).install_to_by env path none fs
  | .NotInstalled l url ds us up =>
    (VersionDiff.NotInstalled l url ds us up).install_to_by env path none fs

/-- Mirror of `VersionDiff::install`: uses the embedded `unpacking_path`. -/
def VersionDiff.install (env : Env) (d : VersionDiff) (fs : FS) : TxResult :=
  match d with
  | .Latest _ => .err .AlreadyLatest fs
  | .Outdated _ _ => .err .Outdated fs
  | .Diff c l url ds us up =>
    match up with
    | some p => (VersionDiff.Diff c l url ds us up).install_to_by env p none fs
    | none => .err .PathNotSpecified fs
  | .NotInstalled l url ds us up =>
    match up with
    | some p => (VersionDiff.NotInstalled l url ds us up).install_to_by env p none fs
    | none => .err .PathNotSpecified fs

/-- Every path an hdiff entry with relative path `r` can touch: the original
file, its `.hdiff` patch and its `.hdiff_patched` output, over a list of
relative paths. -/
def allPaths (path : String) : List String → List String
  | [] => []
  | r :: rest => origPath path r :: patchPath path r :: outPath path r :: allPaths path rest

/-- Stub environment whose collaborators all succeed: the installer leaves the
file system as it finds it and the patch engine produces recognisable
content derived from the original path. -/
def stubEnv : Env where
  dlNew := fun _ => none
  dlRun := fun _ _ => none
  instNew := fun _ => none
  instRun := fun _ _ _ fs => fs
  engine := fun f _ _ _ => Except.ok ("patched:" ++ f)

/-- Stub environment whose patch engine fails on the file `game/b.pck` and
succeeds everywhere else. -/
def failBEnv : Env where
  dlNew := fun _ => none
  dlRun := fun _ _ => none
  instNew := fun _ => none
  instRun := fun _ _ _ fs => fs
  engine := fun f _ _ _ =>
    if f = "game/b.pck" then Except.error "bad patch" else Except.ok ("patched:" ++ f)

/-- Stub environment in which constructing the installer and the downloader
fails with a curl error. -/
def netFailEnv : Env where
  dlNew := fun _ => some "offline"
  dlRun := fun _ _ => some "offline"
  instNew := fun _ => some "offline"
  instRun := fun _ _ _ fs => fs
  engine := fun _ _ _ _ => Except.error "offline"

/-! Basic lemmas about the file-system model. -/

theorem lookupA_removeA_self (l : List (FPath × String)) (p : FPath) :
    lookupA (removeA l p) p = none := by
  induction l with
  | nil => rfl
  | cons hd tl ih =>
    obtain ⟨q, c⟩ := hd
    by_cases h : q = p <;> simp [removeA, lookupA, h, ih]

theorem lookupA_removeA_ne (l : List (FPath × String)) (p q : FPath) (h : q ≠ p) :
    lookupA (removeA l p) q = lookupA l q := by
  induction l with
  | nil => rfl
  | cons hd tl ih =>
    obtain ⟨k, c⟩ := hd
    by_cases hk : k = p
    · subst hk
      have hkq : ¬ k = q := fun e => h e.symm
      simp [removeA, lookupA, hkq, ih]
    · simp [removeA, lookupA, hk, ih]

theorem FS.read_write_self (fs : FS) (p : FPath) (c : String) :
    (fs.write p c).read p = some c := by
  simp [FS.read, FS.write, lookupA]

theorem FS.read_write_ne (fs : FS) (p : FPath) (c : String) (q : FPath) (h : q ≠ p) :
    (fs.write p c).read q = fs.read q := by
  have hpq : ¬ p = q := fun e => h e.symm
  simp [FS.read, FS.write, lookupA, hpq, lookupA_removeA_ne _ _ _ h]

theorem FS.read_remove_self (fs : FS) (p : FPath) : (fs.remove p).read p = none := by
  simp [FS.read, FS.remove, lookupA_removeA_self]

theorem FS.read_remove_ne (fs : FS) (p q : FPath) (h : q ≠ p) :
    (fs.remove p).read q = fs.read q := by
  simp [FS.read, FS.remove, lookupA_removeA_ne _ _ _ h]

theorem FS.removeFile_of_read (fs : FS) (p : FPath) (c : String) (h : fs.read p = some c) :
    fs.removeFile p = some (fs.remove p) := by
  simp [FS.removeFile, h]

theorem FS.rename_of_read (fs : FS) (src dst : FPath) (c : String) (h : fs.read src = some c) :
    fs.rename src dst = some ((fs.remove src).write dst c) := by
  simp [FS.rename, h]

/-! Basic lemmas about strings and paths. -/

theorem strData_append (a b : String) : (a ++ b).data = a.data ++ b.data := rfl

theorem strLength_append (a b : String) :
    (a ++ b).data.length = a.data.length + b.data.length := by
  rw [strData_append, List.length_append]

theorem append_ne_of_len_lt (a s t : String) (h : s.data.length < t.data.length) :
    a ++ s ≠ a ++ t := by
  intro e
  have h2 := congrArg (fun x : String => x.data.length) e
  simp only [strLength_append] at h2
  omega

theorem self_ne_append (a t : String) (h : 0 < t.data.length) : a ≠ a ++ t := by
  intro e
  have h2 := congrArg (fun x : String => x.data.length) e
  simp only [strLength_append] at h2
  omega

theorem strAppend_left_cancel (p a b : String) (h : p ++ a = p ++ b) : a = b := by
  have h2 : p.data ++ a.data = p.data ++ b.data := by
    have h3 := congrArg String.data h
    simpa [strData_append] using h3
  obtain ⟨la⟩ := a
  obtain ⟨lb⟩ := b
  simp only [List.append_cancel_left_eq] at h2
  exact congrArg String.mk h2

theorem origPath_ne_patchPath (path rel : String) :
    origPath path rel ≠ patchPath path rel := by
  unfold patchPath
  exact self_ne_append _ _ (by decide)

theorem origPath_ne_outPath (path rel : String) :
    origPath path rel ≠ outPath path rel := by
  unfold outPath
  exact self_ne_append _ _ (by decide)

theorem patchPath_ne_outPath (path rel : String) :
    patchPath path rel ≠ outPath path rel := by
  unfold patchPath outPath
  exact append_ne_of_len_lt _ _ _ (by decide)

theorem hdiffName_ne_deleteName (path : String) :
    hdiffName path ≠ deleteName path := by
  unfold hdiffName deleteName
  intro e
  have h := strAppend_left_cancel _ _ _ e
  exact absurd h (by decide)

theorem allPaths_append (path : String) (a b : List String) :
    allPaths path (a ++ b) = allPaths path a ++ allPaths path b := by
  induction a with
  | nil => rfl
  | cons r rest ih => simp [allPaths, ih]

theorem orig_mem_allPaths (path r : String) (rels : List String) (h : r ∈ rels) :
    origPath path r ∈ allPaths path rels := by
  induction rels with
  | nil => cases h
  | cons r2 rest ih =>
    rcases List.mem_cons.mp h with rfl | h2
    · simp [allPaths]
    · simp [allPaths, ih h2]

theorem patch_mem_allPaths (path r : String) (rels : List String) (h : r ∈ rels) :
    patchPath path r ∈ allPaths path rels := by
  induction rels with
  | nil => cases h
  | cons r2 rest ih =>
    rcases List.mem_cons.mp h with rfl | h2
    · simp [allPaths]
    · simp [allPaths, ih h2]

theorem out_mem_allPaths (path r : String) (rels : List String) (h : r ∈ rels) :
    outPath path r ∈ allPaths path rels := by
  induction rels with
  | nil => cases h
  | cons r2 rest ih =>
    rcases List.mem_cons.mp h with rfl | h2
    · simp [allPaths]
    · simp [allPaths, ih h2]

/-! Lemmas describing the file system after one successful hdiff entry:
write the output, remove the original, remove the patch, rename the output
over the original. -/

theorem stepFS_frame (fs : FS) (o pa ou c : String) (q : String)
    (h1 : q ≠ o) (h2 : q ≠ pa) (h3 : q ≠ ou) :
    (((((fs.write ou c).remove o).remove pa).remove ou).write o c).read q = fs.read q := by
  rw [FS.read_write_ne _ _ _ _ h1, FS.read_remove_ne _ _ _ h3, FS.read_remove_ne _ _ _ h2,
    FS.read_remove_ne _ _ _ h1, FS.read_write_ne _ _ _ _ h3]

theorem stepFS_orig (fs : FS) (o pa ou c : String) :
    (((((fs.write ou c).remove o).remove pa).remove ou).write o c).read o = some c :=
  FS.read_write_self _ _ _

theorem stepFS_patch (fs : FS) (o pa ou c : String) (h1 : pa ≠ o) (h2 : pa ≠ ou) :
    (((((fs.write ou c).remove o).remove pa).remove ou).write o c).read pa = none := by
  rw [FS.read_write_ne _ _ _ _ h1, FS.read_remove_ne _ _ _ h2, FS.read_remove_self]

theorem stepFS_out (fs : FS) (o pa ou c : String) (h1 : ou ≠ o) :
    (((((fs.write ou c).remove o).remove pa).remove ou).write o c).read ou = none := by
  rw [FS.read_write_ne _ _ _ _ h1, FS.read_remove_self]

/-- Master lemma for the patch-application pass: over a manifest whose
entries (raw line, relative path) are well formed, whose derived paths are
pairwise distinct, whose originals and patches all exist, and on which the
patch engine succeeds deterministically, the pass succeeds; every path
outside the entries' derived paths is untouched, each original ends up with
the engine's output, and each patch file and temporary output is gone. -/
theorem applyHdiffLines_run (env : Env) (path : String) (pc : String → String) :
    ∀ (entries : List (String × String)) (fs : FS),
    (∀ e ∈ entries, sliceStr e.1 16 (e.1.data.length - 2) = some e.2) →
    (∀ e ∈ entries, ∀ g : FS,
        env.engine (origPath path e.2) (patchPath path e.2) (outPath path e.2) g
          = Except.ok (pc e.2)) →
    (∀ e ∈ entries, (fs.read (origPath path e.2)).isSome
        ∧ (fs.read (patchPath path e.2)).isSome) →
    (allPaths path (entries.map Prod.snd)).Nodup →
    ∃ fsF, applyHdiffLines env path (entries.map Prod.fst) fs = TxResult.ok fsF
      ∧ (∀ q, q ∉ allPaths path (entries.map Prod.snd) → fsF.read q = fs.read q)
      ∧ (∀ e ∈ entries, fsF.read (origPath path e.2) = some (pc e.2)
          ∧ fsF.read (patchPath path e.2) = none
          ∧ fsF.read (outPath path e.2) = none) := by
  intro entries
  induction entries with
  | nil =>
    intro fs _ _ _ _
    exact ⟨fs, rfl, fun q _ => rfl, fun e he => absurd he (List.not_mem_nil e)⟩
  | cons ent rest ih =>
    intro fs hslice heng hex hnd
    obtain ⟨l, rel⟩ := ent
    simp only [List.map_cons, allPaths] at hnd ⊢
    obtain ⟨hno, hnd⟩ := List.nodup_cons.mp hnd
    obtain ⟨hnp, hnd⟩ := List.nodup_cons.mp hnd
    obtain ⟨hnu, hndtail⟩ := List.nodup_cons.mp hnd
    have honotail : origPath path rel ∉ allPaths path (rest.map Prod.snd) := by
      intro h
      exact hno (List.mem_cons_of_mem _ (List.mem_cons_of_mem _ h))
    have hpnotail : patchPath path rel ∉ allPaths path (rest.map Prod.snd) := by
      intro h
      exact hnp (List.mem_cons_of_mem _ h)
    have hsl : sliceStr l 16 (l.data.length - 2) = some rel :=
      hslice (l, rel) (List.mem_cons_self _ _)
    have hengfs : env.engine (origPath path rel) (patchPath path rel) (outPath path rel) fs
        = Except.ok (pc rel) :=
      heng (l, rel) (List.mem_cons_self _ _) fs
    obtain ⟨hox, hpx⟩ := hex (l, rel) (List.mem_cons_self _ _)
    obtain ⟨c1, hc1⟩ := Option.isSome_iff_exists.mp hox
    obtain ⟨c2, hc2⟩ := Option.isSome_iff_exists.mp hpx
    have hr1 : (fs.write (outPath path rel) (pc rel)).read (origPath path rel) = some c1 := by
      rw [FS.read_write_ne _ _ _ _ (origPath_ne_outPath path rel)]
      exact hc1
    have hrm1 : (fs.write (outPath path rel) (pc rel)).removeFile (origPath path rel)
        = some ((fs.write (outPath path rel) (pc rel)).remove (origPath path rel)) :=
      FS.removeFile_of_read _ _ _ hr1
    have hr2 : ((fs.write (outPath path rel) (pc rel)).remove (origPath path rel)).read
        (patchPath path rel) = some c2 := by
      rw [FS.read_remove_ne _ _ _ (origPath_ne_patchPath path rel).symm,
        FS.read_write_ne _ _ _ _ (patchPath_ne_outPath path rel)]
      exact hc2
    have hrm2 : ((fs.write (outPath path rel) (pc rel)).remove (origPath path rel)).removeFile
        (patchPath path rel)
        = some (((fs.write (outPath path rel) (pc rel)).remove (origPath path rel)).remove
            (patchPath path rel)) :=
      FS.removeFile_of_read _ _ _ hr2
    have hr3 : (((fs.write (outPath path rel) (pc rel)).remove (origPath path rel)).remove
        (patchPath path rel)).read (outPath path rel) = some (pc rel) := by
      rw [FS.read_remove_ne _ _ _ (patchPath_ne_outPath path rel).symm,
        FS.read_remove_ne _ _ _ (origPath_ne_outPath path rel).symm,
        FS.read_write_self]
    have hren : (((fs.write (outPath path rel) (pc rel)).remove (origPath path rel)).remove
        (patchPath path rel)).rename (outPath path rel) (origPath path rel)
        = some ((((((fs.write (outPath path rel) (pc rel)).remove
            (origPath path rel)).remove (patchPath path rel)).remove
            (outPath path rel)).write (origPath path rel) (pc rel))) :=
      FS.rename_of_read _ _ _ _ hr3
    have run_eq : applyHdiffLines env path (l :: rest.map Prod.fst) fs
        = applyHdiffLines env path (rest.map Prod.fst)
          ((((((fs.write (outPath path rel) (pc rel)).remove (origPath path rel)).remove
            (patchPath path rel)).remove (outPath path rel)).write (origPath path rel)
            (pc rel))) := by
      simp only [applyHdiffLines, hsl, hengfs, hrm1, hrm2, hren]
    have hexrest : ∀ e ∈ rest,
        ((((((fs.write (outPath path rel) (pc rel)).remove (origPath path rel)).remove
          (patchPath path rel)).remove (outPath path rel)).write (origPath path rel)
          (pc rel)).read (origPath path e.2)).isSome
        ∧ ((((((fs.write (outPath path rel) (pc rel)).remove (origPath path rel)).remove
          (patchPath path rel)).remove (outPath path rel)).write (origPath path rel)
          (pc rel)).read (patchPath path e.2)).isSome := by
      intro e he
      have hmem : e.2 ∈ rest.map Prod.snd := List.mem_map_of_mem _ he
      have hoe := orig_mem_allPaths path e.2 _ hmem
      have hpe := patch_mem_allPaths path e.2 _ hmem
      obtain ⟨h1, h2⟩ := hex e (List.mem_cons_of_mem _ he)
      constructor
      · rw [stepFS_frame fs (origPath path rel) (patchPath path rel) (outPath path rel)
          (pc rel) (origPath path e.2) (fun h => honotail (h ▸ hoe))
          (fun h => hpnotail (h ▸ hoe)) (fun h => hnu (h ▸ hoe))]
        exact h1
      · rw [stepFS_frame fs (origPath path rel) (patchPath path rel) (outPath path rel)
          (pc rel) (patchPath path e.2) (fun h => honotail (h ▸ hpe))
          (fun h => hpnotail (h ▸ hpe)) (fun h => hnu (h ▸ hpe))]
        exact h2
    obtain ⟨fsF, hrunF, hframeF, hvalsF⟩ := ih
      ((((((fs.write (outPath path rel) (pc rel)).remove (origPath path rel)).remove
        (patchPath path rel)).remove (outPath path rel)).write (origPath path rel) (pc rel)))
      (fun e he => hslice e (List.mem_cons_of_mem _ he))
      (fun e he => heng e (List.mem_cons_of_mem _ he))
      hexrest hndtail
    refine ⟨fsF, ?_, ?_, ?_⟩
    · rw [run_eq]
      exact hrunF
    · intro q hq
      have hq1 : q ≠ origPath path rel := fun h => hq (by rw [h]; exact List.mem_cons_self _ _)
      have hq2 : q ≠ patchPath path rel := fun h => hq
        (by rw [h]; exact List.mem_cons_of_mem _ (List.mem_cons_self _ _))
      have hq3 : q ≠ outPath path rel := fun h => hq
        (by rw [h]; exact List.mem_cons_of_mem _ (List.mem_cons_of_mem _ (List.mem_cons_self _ _)))
      have hq4 : q ∉ allPaths path (rest.map Prod.snd) := fun h => hq
        (List.mem_cons_of_mem _ (List.mem_cons_of_mem _ (List.mem_cons_of_mem _ h)))
      rw [hframeF q hq4]
      exact stepFS_frame fs _ _ _ _ _ hq1 hq2 hq3
    · intro e he
      rcases List.mem_cons.mp he with rfl | he2
      · refine ⟨?_, ?_, ?_⟩
        · rw [hframeF _ honotail]
          exact stepFS_orig fs _ _ _ _
        · rw [hframeF _ hpnotail]
          exact stepFS_patch fs _ _ _ _ (origPath_ne_patchPath path rel).symm
            (patchPath_ne_outPath path rel)
        · rw [hframeF _ hnu]
          exact stepFS_out fs _ _ _ _ (origPath_ne_outPath path rel).symm
      · exact hvalsF e he2

/-- Processing a manifest that is an append: when the first block succeeds,
processing continues on the second block from the state the first block
produced. -/
theorem applyHdiffLines_append (env : Env) (path : String) (xs : List String) :
    ∀ (ys : List String) (fs fs2 : FS),
    applyHdiffLines env path xs fs = TxResult.ok fs2 →
    applyHdiffLines env path (xs ++ ys) fs = applyHdiffLines env path ys fs2 := by
  induction xs with
  | nil =>
    intro ys fs fs2 h
    simp only [applyHdiffLines] at h
    cases h
    rw [List.nil_append]
  | cons x xs ih =>
    intro ys fs fs2 h
    simp only [List.cons_append]
    simp only [applyHdiffLines] at h ⊢
    cases hs : sliceStr x 16 (x.data.length - 2) with
    | none =>
      simp only [hs] at h
      exact TxResult.noConfusion h
    | some rel =>
      simp only [hs] at h ⊢
      cases he : env.engine (origPath path rel) (patchPath path rel) (outPath path rel) fs with
      | error e =>
        simp only [he] at h
        exact TxResult.noConfusion h
      | ok ctt =>
        simp only [he] at h ⊢
        cases h1 : (fs.write (outPath path rel) ctt).removeFile (origPath path rel) with
        | none =>
          simp only [h1] at h
          exact TxResult.noConfusion h
        | some fsa =>
          simp only [h1] at h ⊢
          cases h2 : fsa.removeFile (patchPath path rel) with
          | none =>
            simp only [h2] at h
            exact TxResult.noConfusion h
          | some fsb =>
            simp only [h2] at h ⊢
            cases h3 : fsb.rename (outPath path rel) (origPath path rel) with
            | none =>
              simp only [h3] at h
              exact TxResult.noConfusion h
            | some fsc =>
              simp only [h3] at h ⊢
              exact ih ys fsc fs2 h

/-- C1: with a working installer, a well-formed hdiff manifest of distinct
entries whose originals and patches all exist after the installer step, a
patch engine that succeeds on every invocation, and no stale-file manifest,
`install_to_by` succeeds; afterwards every listed file carries the engine's
patched content, no listed `.hdiff` patch file remains, and the manifest
itself is deleted. -/
theorem c1_hdiff_transaction_success (env : Env) (d : VersionDiff) (path : String)
    (temp : Option String) (fs fs1 : FS) (c l : Version) (url : String) (ds us : Nat)
    (up : Option String) (content : String) (entries : List (String × String))
    (pc : String → String)
    (hd : d = VersionDiff.Diff c l url ds us up
        ∨ d = VersionDiff.NotInstalled l url ds us up)
    (hnew : env.instNew url = none)
    (hinst : env.instRun url temp path fs = fs1)
    (hread : fs1.read (hdiffName path) = some content)
    (hlines : rustLines content = entries.map Prod.fst)
    (hslice : ∀ e ∈ entries, sliceStr e.1 16 (e.1.data.length - 2) = some e.2)
    (heng : ∀ e ∈ entries, ∀ g : FS,
        env.engine (origPath path e.2) (patchPath path e.2) (outPath path e.2) g
          = Except.ok (pc e.2))
    (hex : ∀ e ∈ entries, (fs1.read (origPath path e.2)).isSome
        ∧ (fs1.read (patchPath path e.2)).isSome)
    (hnd : (allPaths path (entries.map Prod.snd)).Nodup)
    (hctrl : hdiffName path ∉ allPaths path (entries.map Prod.snd))
    (hdel1 : deleteName path ∉ allPaths path (entries.map Prod.snd))
    (hdel2 : fs1.read (deleteName path) = none) :
    ∃ fsF, VersionDiff.install_to_by env d path temp fs = TxResult.ok fsF
      ∧ (∀ e ∈ entries, fsF.read (origPath path e.2) = some (pc e.2)
          ∧ fsF.read (patchPath path e.2) = none)
      ∧ fsF.read (hdiffName path) = none := by
  obtain ⟨fsF, hrun, hframe, hvals⟩ :=
    applyHdiffLines_run env path pc entries fs1 hslice heng hex hnd
  have hctrlF : fsF.read (hdiffName path) = some content := by
    rw [hframe _ hctrl]
    exact hread
  have hrm : fsF.removeFile (hdiffName path) = some (fsF.remove (hdiffName path)) :=
    FS.removeFile_of_read _ _ _ hctrlF
  have hpass : hdiffPass env path fs1 = TxResult.ok (fsF.remove (hdiffName path)) := by
    simp only [hdiffPass, hread, hlines, hrun, hrm]
  have hdelF : (fsF.remove (hdiffName path)).read (deleteName path) = none := by
    rw [FS.read_remove_ne _ _ _ (hdiffName_ne_deleteName path).symm, hframe _ hdel1]
    exact hdel2
  have hdp : deletePass path (fsF.remove (hdiffName path))
      = TxResult.ok (fsF.remove (hdiffName path)) := by
    simp only [deletePass, hdelF]
  have hito : installTo env url path temp fs = TxResult.ok (fsF.remove (hdiffName path)) := by
    simp only [installTo, hnew, hinst, hpass, hdp]
  refine ⟨fsF.remove (hdiffName path), ?_, ?_, ?_⟩
  · rcases hd with rfl | rfl
    · exact hito
    · exact hito
  · intro e he
    have hne1 : origPath path e.2 ≠ hdiffName path :=
      fun h => hctrl (h ▸ orig_mem_allPaths path e.2 _ (List.mem_map_of_mem _ he))
    have hne2 : patchPath path e.2 ≠ hdiffName path :=
      fun h => hctrl (h ▸ patch_mem_allPaths path e.2 _ (List.mem_map_of_mem _ he))
    obtain ⟨hv1, hv2, _⟩ := hvals e he
    constructor
    · rw [FS.read_remove_ne _ _ _ hne1]
      exact hv1
    · rw [FS.read_remove_ne _ _ _ hne2]
      exact hv2
  · exact FS.read_remove_self _ _

/-- C10: when the hdiff manifest contains a line shorter than 18 bytes and
every earlier line processes successfully, `install_to_by` panics while
slicing the path payload out of the malformed line instead of returning an
error or skipping it. -/
theorem c10_short_manifest_line_panics (env : Env) (d : VersionDiff) (path : String)
    (temp : Option String) (fs fs1 fs2 : FS) (c l : Version) (url : String) (ds us : Nat)
    (up : Option String) (content bad : String) (pre rest : List String)
    (hd : d = VersionDiff.Diff c l url ds us up
        ∨ d = VersionDiff.NotInstalled l url ds us up)
    (hnew : env.instNew url = none)
    (hinst : env.instRun url temp path fs = fs1)
    (hread : fs1.read (hdiffName path) = some content)
    (hlines : rustLines content = pre ++ bad :: rest)
    (hpre : applyHdiffLines env path pre fs1 = TxResult.ok fs2)
    (hbad : bad.data.length < 18) :
    VersionDiff.install_to_by env d path temp fs
      = TxResult.panic "byte index out of range" fs2 := by
  have hsl : sliceStr bad 16 (bad.data.length - 2) = none := by
    unfold sliceStr
    have hc : ¬ (16 ≤ bad.data.length - 2 ∧ bad.data.length - 2 ≤ bad.data.length) := by
      intro hcond
      omega
    rw [if_neg hc]
  have happ := applyHdiffLines_append env path pre (bad :: rest) fs1 fs2 hpre
  have hfail : applyHdiffLines env path (bad :: rest) fs2
      = TxResult.panic "byte index out of range" fs2 := by
    simp only [applyHdiffLines, hsl]
  have hpass : hdiffPass env path fs1 = TxResult.panic "byte index out of range" fs2 := by
    simp only [hdiffPass, hread, hlines, happ, hfail]
  have hito : installTo env url path temp fs
      = TxResult.panic "byte index out of range" fs2 := by
    simp only [installTo, hnew, hinst, hpass]
  rcases hd with rfl | rfl
  · exact hito
  · exact hito

/-- C3 (refuting the claim on the code): the cleanup pass calls `remove_file`
on the raw manifest line without joining it with the destination path.  On a
destination `game` whose manifest lists `data/old.pck`, with the file
`game/data/old.pck` present under the destination and an unrelated file at
the bare path `data/old.pck`, the transaction completes successfully, yet the
listed file under the destination still exists afterwards — only the file at
the bare path was removed. -/
theorem c3_delete_pass_ignores_destination :
    VersionDiff.install_to_by stubEnv (VersionDiff.NotInstalled ⟨1, 1, 0⟩ "u" 5 9 none)
        "game" none
        ⟨[("game/deletefiles.txt", "data/old.pck\n"), ("game/data/old.pck", "x"),
          ("data/old.pck", "y")]⟩
      = TxResult.ok ⟨[("game/data/old.pck", "x")]⟩
  ∧ (FS.mk [("game/data/old.pck", "x")]).read (origPath "game" "data/old.pck")
      = some "x" := by
  constructor
  · rfl
  · rfl

/-- C2: when the patch engine succeeds on a prefix of the manifest and fails
on the next entry, `install_to_by` returns `HdiffPatch` with the engine's
detail immediately: the prefix entries are fully patched with their patches
removed, the failing entry and all later entries are untouched (originals and
patches read exactly as after the installer step, so the patches are still
present), and the manifest itself is not deleted. -/
theorem c2_engine_failure_aborts (env : Env) (d : VersionDiff) (path : String)
    (temp : Option String) (fs fs1 : FS) (c l : Version) (url : String) (ds us : Nat)
    (up : Option String) (content : String) (pre post : List (String × String))
    (lk relk : String) (pc : String → String) (edetail : String)
    (hd : d = VersionDiff.Diff c l url ds us up
        ∨ d = VersionDiff.NotInstalled l url ds us up)
    (hnew : env.instNew url = none)
    (hinst : env.instRun url temp path fs = fs1)
    (hread : fs1.read (hdiffName path) = some content)
    (hlines : rustLines content = (pre ++ (lk, relk) :: post).map Prod.fst)
    (hslice : ∀ e ∈ pre, sliceStr e.1 16 (e.1.data.length - 2) = some e.2)
    (hslk : sliceStr lk 16 (lk.data.length - 2) = some relk)
    (heng : ∀ e ∈ pre, ∀ g : FS,
        env.engine (origPath path e.2) (patchPath path e.2) (outPath path e.2) g
          = Except.ok (pc e.2))
    (hengk : ∀ g : FS,
        env.engine (origPath path relk) (patchPath path relk) (outPath path relk) g
          = Except.error edetail)
    (hex : ∀ e ∈ pre, (fs1.read (origPath path e.2)).isSome
        ∧ (fs1.read (patchPath path e.2)).isSome)
    (hnd : (allPaths path ((pre ++ (lk, relk) :: post).map Prod.snd)).Nodup)
    (hctrl : hdiffName path ∉ allPaths path (pre.map Prod.snd)) :
    ∃ fsk, VersionDiff.install_to_by env d path temp fs
        = TxResult.err (DiffDownloadError.HdiffPatch edetail) fsk
      ∧ (∀ e ∈ pre, fsk.read (origPath path e.2) = some (pc e.2)
          ∧ fsk.read (patchPath path e.2) = none)
      ∧ (∀ e ∈ (lk, relk) :: post,
          fsk.read (origPath path e.2) = fs1.read (origPath path e.2)
          ∧ fsk.read (patchPath path e.2) = fs1.read (patchPath path e.2))
      ∧ fsk.read (hdiffName path) = some content := by
  have hmap : ((pre ++ (lk, relk) :: post).map Prod.snd)
      = pre.map Prod.snd ++ relk :: post.map Prod.snd := by
    simp
  rw [hmap, allPaths_append] at hnd
  obtain ⟨hndpre, _, hdisj⟩ := List.nodup_append.mp hnd
  obtain ⟨fsk, hrun, hframe, hvals⟩ :=
    applyHdiffLines_run env path pc pre fs1 hslice heng hex hndpre
  have hstep : applyHdiffLines env path (lk :: post.map Prod.fst) fsk
      = TxResult.err (DiffDownloadError.HdiffPatch edetail) fsk := by
    simp only [applyHdiffLines, hslk, hengk fsk]
  have happ := applyHdiffLines_append env path (pre.map Prod.fst)
    (lk :: post.map Prod.fst) fs1 fsk hrun
  have hwhole : applyHdiffLines env path ((pre ++ (lk, relk) :: post).map Prod.fst) fs1
      = TxResult.err (DiffDownloadError.HdiffPatch edetail) fsk := by
    rw [List.map_append, List.map_cons, happ]
    exact hstep
  have hpass : hdiffPass env path fs1
      = TxResult.err (DiffDownloadError.HdiffPatch edetail) fsk := by
    simp only [hdiffPass, hread, hlines, hwhole]
  have hito : installTo env url path temp fs
      = TxResult.err (DiffDownloadError.HdiffPatch edetail) fsk := by
    simp only [installTo, hnew, hinst, hpass]
  refine ⟨fsk, ?_, ?_, ?_, ?_⟩
  · rcases hd with rfl | rfl
    · exact hito
    · exact hito
  · intro e he
    obtain ⟨hv1, hv2, _⟩ := hvals e he
    exact ⟨hv1, hv2⟩
  · intro e he
    have hmem : e.2 ∈ relk :: post.map Prod.snd := by
      rcases List.mem_cons.mp he with rfl | he2
      · exact List.mem_cons_self _ _
      · exact List.mem_cons_of_mem _ (List.mem_map_of_mem _ he2)
    have ho := orig_mem_allPaths path e.2 _ hmem
    have hp := patch_mem_allPaths path e.2 _ hmem
    constructor
    · exact hframe _ (fun hq => hdisj hq ho)
    · exact hframe _ (fun hq => hdisj hq hp)
  · rw [hframe _ hctrl]
    exact hread

/-- Witness for C1: a two-entry manifest over the destination `game`, both
entries patched by the always-succeeding stub engine. -/
theorem c1_hdiff_transaction_success_witness :
    ∃ fsF, VersionDiff.install_to_by stubEnv
        (VersionDiff.Diff ⟨1, 0, 0⟩ ⟨1, 1, 0⟩ "u" 5 9 (some "game")) "game" none
        ⟨[("game/hdifffiles.txt", "AAAAAAAAAAAAAAAAa.pckZZ\nAAAAAAAAAAAAAAAAb.pckZZ\n"),
          ("game/a.pck", "olda"), ("game/a.pck.hdiff", "pa"),
          ("game/b.pck", "oldb"), ("game/b.pck.hdiff", "pb")]⟩
      = TxResult.ok fsF
      ∧ (∀ e ∈ [("AAAAAAAAAAAAAAAAa.pckZZ", "a.pck"), ("AAAAAAAAAAAAAAAAb.pckZZ", "b.pck")],
          fsF.read (origPath "game" e.2) = some ("patched:" ++ origPath "game" e.2)
          ∧ fsF.read (patchPath "game" e.2) = none)
      ∧ fsF.read (hdiffName "game") = none :=
  c1_hdiff_transaction_success stubEnv
    (VersionDiff.Diff ⟨1, 0, 0⟩ ⟨1, 1, 0⟩ "u" 5 9 (some "game")) "game" none
    ⟨[("game/hdifffiles.txt", "AAAAAAAAAAAAAAAAa.pckZZ\nAAAAAAAAAAAAAAAAb.pckZZ\n"),
      ("game/a.pck", "olda"), ("game/a.pck.hdiff", "pa"),
      ("game/b.pck", "oldb"), ("game/b.pck.hdiff", "pb")]⟩
    ⟨[("game/hdifffiles.txt", "AAAAAAAAAAAAAAAAa.pckZZ\nAAAAAAAAAAAAAAAAb.pckZZ\n"),
      ("game/a.pck", "olda"), ("game/a.pck.hdiff", "pa"),
      ("game/b.pck", "oldb"), ("game/b.pck.hdiff", "pb")]⟩
    ⟨1, 0, 0⟩ ⟨1, 1, 0⟩ "u" 5 9 (some "game")
    "AAAAAAAAAAAAAAAAa.pckZZ\nAAAAAAAAAAAAAAAAb.pckZZ\n"
    [("AAAAAAAAAAAAAAAAa.pckZZ", "a.pck"), ("AAAAAAAAAAAAAAAAb.pckZZ", "b.pck")]
    (fun r => "patched:" ++ origPath "game" r)
    (Or.inl rfl) rfl rfl (by decide) (by decide) (by decide) (fun _ _ _ => rfl)
    (by decide) (by decide) (by decide) (by decide) (by decide)

/-- Witness for C2: the stub engine patches the first entry and fails on the
second; the first file is patched, the second is untouched, the manifest
survives. -/
theorem c2_engine_failure_aborts_witness :
    ∃ fsk, VersionDiff.install_to_by failBEnv
        (VersionDiff.Diff ⟨1, 0, 0⟩ ⟨1, 1, 0⟩ "u" 5 9 (some "game")) "game" none
        ⟨[("game/hdifffiles.txt", "AAAAAAAAAAAAAAAAa.pckZZ\nAAAAAAAAAAAAAAAAb.pckZZ\n"),
          ("game/a.pck", "olda"), ("game/a.pck.hdiff", "pa"),
          ("game/b.pck", "oldb"), ("game/b.pck.hdiff", "pb")]⟩
      = TxResult.err (DiffDownloadError.HdiffPatch "bad patch") fsk
      ∧ (∀ e ∈ [("AAAAAAAAAAAAAAAAa.pckZZ", "a.pck")],
          fsk.read (origPath "game" e.2) = some ("patched:" ++ origPath "game" e.2)
          ∧ fsk.read (patchPath "game" e.2) = none)
      ∧ (∀ e ∈ [("AAAAAAAAAAAAAAAAb.pckZZ", "b.pck")],
          fsk.read (origPath "game" e.2)
            = FS.read ⟨[("game/hdifffiles.txt",
                "AAAAAAAAAAAAAAAAa.pckZZ\nAAAAAAAAAAAAAAAAb.pckZZ\n"),
              ("game/a.pck", "olda"), ("game/a.pck.hdiff", "pa"),
              ("game/b.pck", "oldb"), ("game/b.pck.hdiff", "pb")]⟩ (origPath "game" e.2)
          ∧ fsk.read (patchPath "game" e.2)
            = FS.read ⟨[("game/hdifffiles.txt",
                "AAAAAAAAAAAAAAAAa.pckZZ\nAAAAAAAAAAAAAAAAb.pckZZ\n"),
              ("game/a.pck", "olda"), ("game/a.pck.hdiff", "pa"),
              ("game/b.pck", "oldb"), ("game/b.pck.hdiff", "pb")]⟩ (patchPath "game" e.2))
      ∧ fsk.read (hdiffName "game")
        = some "AAAAAAAAAAAAAAAAa.pckZZ\nAAAAAAAAAAAAAAAAb.pckZZ\n" :=
  c2_engine_failure_aborts failBEnv
    (VersionDiff.Diff ⟨1, 0, 0⟩ ⟨1, 1, 0⟩ "u" 5 9 (some "game")) "game" none
    ⟨[("game/hdifffiles.txt", "AAAAAAAAAAAAAAAAa.pckZZ\nAAAAAAAAAAAAAAAAb.pckZZ\n"),
      ("game/a.pck", "olda"), ("game/a.pck.hdiff", "pa"),
      ("game/b.pck", "oldb"), ("game/b.pck.hdiff", "pb")]⟩
    ⟨[("game/hdifffiles.txt", "AAAAAAAAAAAAAAAAa.pckZZ\nAAAAAAAAAAAAAAAAb.pckZZ\n"),
      ("game/a.pck", "olda"), ("game/a.pck.hdiff", "pa"),
      ("game/b.pck", "oldb"), ("game/b.pck.hdiff", "pb")]⟩
    ⟨1, 0, 0⟩ ⟨1, 1, 0⟩ "u" 5 9 (some "game")
    "AAAAAAAAAAAAAAAAa.pckZZ\nAAAAAAAAAAAAAAAAb.pckZZ\n"
    [("AAAAAAAAAAAAAAAAa.pckZZ", "a.pck")] []
    "AAAAAAAAAAAAAAAAb.pckZZ" "b.pck"
    (fun r => "patched:" ++ origPath "game" r) "bad patch"
    (Or.inl rfl) rfl rfl (by decide) (by decide) (by decide) (by decide)
    (by intro e he g
        rcases List.mem_singleton.mp he with rfl
        rfl)
    (fun _ => rfl) (by decide) (by decide) (by decide)

/-- Witness for C10: a manifest consisting of two empty lines makes the
transaction panic on the very first line. -/
theorem c10_short_manifest_line_panics_witness :
    VersionDiff.install_to_by stubEnv
        (VersionDiff.Diff ⟨1, 0, 0⟩ ⟨1, 1, 0⟩ "u" 5 9 (some "game")) "game" none
        ⟨[("game/hdifffiles.txt", "\n\n")]⟩
      = TxResult.panic "byte index out of range" ⟨[("game/hdifffiles.txt", "\n\n")]⟩ :=
  c10_short_manifest_line_panics stubEnv
    (VersionDiff.Diff ⟨1, 0, 0⟩ ⟨1, 1, 0⟩ "u" 5 9 (some "game")) "game" none
    ⟨[("game/hdifffiles.txt", "\n\n")]⟩ ⟨[("game/hdifffiles.txt", "\n\n")]⟩
    ⟨[("game/hdifffiles.txt", "\n\n")]⟩
    ⟨1, 0, 0⟩ ⟨1, 1, 0⟩ "u" 5 9 (some "game") "\n\n" "" [] [""]
    (Or.inl rfl) rfl rfl (by decide) (by decide) rfl (by decide)

/-! Claim theorems for the simple resolution-level contracts. -/

/-- C4: for every resolution in the `Latest` variant, `download_to`,
`install`, `install_to` and `install_to_by` all return `AlreadyLatest`, and
for every resolution in the `Outdated` variant they all return `Outdated`,
regardless of the values of all other fields and arguments. -/
theorem c4_latest_outdated_always_rejected (env : Env) (v c l : Version) (path : String)
    (temp : Option String) (fs : FS) :
    VersionDiff.download_to env (VersionDiff.Latest v) path
        = Except.error DiffDownloadError.AlreadyLatest
  ∧ VersionDiff.install env (VersionDiff.Latest v) fs
        = TxResult.err DiffDownloadError.AlreadyLatest fs
  ∧ VersionDiff.install_to env (VersionDiff.Latest v) path fs
        = TxResult.err DiffDownloadError.AlreadyLatest fs
  ∧ VersionDiff.install_to_by env (VersionDiff.Latest v) path temp fs
        = TxResult.err DiffDownloadError.AlreadyLatest fs
  ∧ VersionDiff.download_to env (VersionDiff.Outdated c l) path
        = Except.error DiffDownloadError.Outdated
  ∧ VersionDiff.install env (VersionDiff.Outdated c l) fs
        = TxResult.err DiffDownloadError.Outdated fs
  ∧ VersionDiff.install_to env (VersionDiff.Outdated c l) path fs
        = TxResult.err DiffDownloadError.Outdated fs
  ∧ VersionDiff.install_to_by env (VersionDiff.Outdated c l) path temp fs
        = TxResult.err DiffDownloadError.Outdated fs :=
  ⟨rfl, rfl, rfl, rfl, rfl, rfl, rfl, rfl⟩

/-- C5: for every resolution in the `Diff` or `NotInstalled` variant whose
`unpacking_path` is `None`, `install` returns `PathNotSpecified` and the file
system is returned unchanged (no file-system operation happens). -/
theorem c5_install_path_not_specified (env : Env) (c l : Version) (url : String)
    (ds us : Nat) (fs : FS) :
    VersionDiff.install env (VersionDiff.Diff c l url ds us none) fs
        = TxResult.err DiffDownloadError.PathNotSpecified fs
  ∧ VersionDiff.install env (VersionDiff.NotInstalled l url ds us none) fs
        = TxResult.err DiffDownloadError.PathNotSpecified fs :=
  ⟨rfl, rfl⟩

/-- C6: `get_size` is `none` exactly on `Latest` and `Outdated` and
`some (download_size, unpacked_size)` on `Diff` and `NotInstalled`;
`unpacking_path` is `none` on `Latest` and `Outdated` and returns the
embedded optional path on `Diff` and `NotInstalled`. -/
theorem c6_size_and_path_accessors (v c l : Version) (url : String) (ds us : Nat)
    (up : Option String) :
    (VersionDiff.Latest v).get_size = none
  ∧ (VersionDiff.Outdated c l).get_size = none
  ∧ (VersionDiff.Diff c l url ds us up).get_size = some (ds, us)
  ∧ (VersionDiff.NotInstalled l url ds us up).get_size = some (ds, us)
  ∧ (VersionDiff.Latest v).unpacking_path = none
  ∧ (VersionDiff.Outdated c l).unpacking_path = none
  ∧ (VersionDiff.Diff c l url ds us up).unpacking_path = up
  ∧ (VersionDiff.NotInstalled l url ds us up).unpacking_path = up :=
  ⟨rfl, rfl, rfl, rfl, rfl, rfl, rfl, rfl⟩

/-- C8: on every downloadable resolution, `install_to path` agrees with
`install_to_by path none` (same result, same file-system effects), and when
the embedded `unpacking_path` is `some p`, `install` agrees with
`install_to_by p none`: the entry points differ only in how the destination
is chosen. -/
theorem c8_entry_points_converge (env : Env) (d : VersionDiff) (path p : String) (fs : FS)
    (c l : Version) (url : String) (ds us : Nat) (up : Option String)
    (hd : d = VersionDiff.Diff c l url ds us up
        ∨ d = VersionDiff.NotInstalled l url ds us up) :
    VersionDiff.install_to env d path fs = VersionDiff.install_to_by env d path none fs
  ∧ (VersionDiff.unpacking_path d = some p →
      VersionDiff.install env d fs = VersionDiff.install_to_by env d p none fs) := by
  rcases hd with rfl | rfl
  · refine ⟨rfl, ?_⟩
    intro h
    simp only [VersionDiff.unpacking_path] at h
    subst h
    rfl
  · refine ⟨rfl, ?_⟩
    intro h
    simp only [VersionDiff.unpacking_path] at h
    subst h
    rfl

/-- Witness for C8 at a concrete `Diff` resolution with a known path. -/
theorem c8_entry_points_converge_witness :
    VersionDiff.install_to stubEnv
        (VersionDiff.Diff ⟨1, 0, 0⟩ ⟨1, 1, 0⟩ "u" 5 9 (some "game")) "dest" ⟨[]⟩
      = VersionDiff.install_to_by stubEnv
        (VersionDiff.Diff ⟨1, 0, 0⟩ ⟨1, 1, 0⟩ "u" 5 9 (some "game")) "dest" none ⟨[]⟩
  ∧ (VersionDiff.unpacking_path
        (VersionDiff.Diff ⟨1, 0, 0⟩ ⟨1, 1, 0⟩ "u" 5 9 (some "game")) = some "game" →
      VersionDiff.install stubEnv
          (VersionDiff.Diff ⟨1, 0, 0⟩ ⟨1, 1, 0⟩ "u" 5 9 (some "game")) ⟨[]⟩
        = VersionDiff.install_to_by stubEnv
          (VersionDiff.Diff ⟨1, 0, 0⟩ ⟨1, 1, 0⟩ "u" 5 9 (some "game")) "game" none ⟨[]⟩) :=
  c8_entry_points_converge stubEnv _ "dest" "game" ⟨[]⟩ ⟨1, 0, 0⟩ ⟨1, 1, 0⟩ "u" 5 9
    (some "game") (Or.inl rfl)

/-- C9: when constructing the package installer fails, `install_to_by`
reports the failure as a `Curl` transport error and stops with the file
system untouched — neither the patch pass nor the cleanup pass runs. -/
theorem c9_installer_failure_stops_transaction (env : Env) (d : VersionDiff) (path : String)
    (temp : Option String) (fs : FS) (c l : Version) (url : String) (ds us : Nat)
    (up : Option String) (e : String)
    (hd : d = VersionDiff.Diff c l url ds us up
        ∨ d = VersionDiff.NotInstalled l url ds us up)
    (hfail : env.instNew url = some e) :
    VersionDiff.install_to_by env d path temp fs
      = TxResult.err (DiffDownloadError.Curl e) fs := by
  rcases hd with rfl | rfl <;>
    simp [VersionDiff.install_to_by, installTo, hfail]

/-- Witness for C9 in an environment whose installer cannot be constructed. -/
theorem c9_installer_failure_stops_transaction_witness :
    VersionDiff.install_to_by netFailEnv
        (VersionDiff.Diff ⟨1, 0, 0⟩ ⟨1, 1, 0⟩ "u" 5 9 none) "dest" none ⟨[]⟩
      = TxResult.err (DiffDownloadError.Curl "offline") ⟨[]⟩ :=
  c9_installer_failure_stops_transaction netFailEnv _ "dest" none ⟨[]⟩ ⟨1, 0, 0⟩ ⟨1, 1, 0⟩
    "u" 5 9 none "offline" (Or.inl rfl) rfl

/-- Helper: with a working installer and neither manifest present in the
destination after the installer ran, `installTo` succeeds and returns exactly
the installer's output state. -/
theorem installTo_no_manifests (env : Env) (url path : String) (temp : Option String) (fs : FS)
    (hnew : env.instNew url = none)
    (h1 : (env.instRun url temp path fs).read (hdiffName path) = none)
    (h2 : (env.instRun url temp path fs).read (deleteName path) = none) :
    installTo env url path temp fs = TxResult.ok (env.instRun url temp path fs) := by
  simp [installTo, hnew, hdiffPass, h1, deletePass, h2]

/-- C7: with neither manifest present after the installer step, the
transaction succeeds and changes nothing beyond the installer's own effect;
and when the installer's effect is idempotent on the processed destination,
re-running the whole transaction on it is a no-op success. -/
theorem c7_no_manifests_noop_and_idempotent (env : Env) (d : VersionDiff) (path : String)
    (temp : Option String) (fs : FS) (c l : Version) (url : String) (ds us : Nat)
    (up : Option String)
    (hd : d = VersionDiff.Diff c l url ds us up
        ∨ d = VersionDiff.NotInstalled l url ds us up)
    (hnew : env.instNew url = none)
    (h1 : (env.instRun url temp path fs).read (hdiffName path) = none)
    (h2 : (env.instRun url temp path fs).read (deleteName path) = none) :
    VersionDiff.install_to_by env d path temp fs
      = TxResult.ok (env.instRun url temp path fs)
  ∧ (env.instRun url temp path (env.instRun url temp path fs) = env.instRun url temp path fs →
      VersionDiff.install_to_by env d path temp (env.instRun url temp path fs)
        = TxResult.ok (env.instRun url temp path fs)) := by
  have key : installTo env url path temp fs = TxResult.ok (env.instRun url temp path fs) :=
    installTo_no_manifests env url path temp fs hnew h1 h2
  have key2 : env.instRun url temp path (env.instRun url temp path fs)
        = env.instRun url temp path fs →
      installTo env url path temp (env.instRun url temp path fs)
        = TxResult.ok (env.instRun url temp path fs) := by
    intro hidem
    have h1b : (env.instRun url temp path (env.instRun url temp path fs)).read (hdiffName path)
        = none := by rw [hidem]; exact h1
    have h2b : (env.instRun url temp path (env.instRun url temp path fs)).read (deleteName path)
        = none := by rw [hidem]; exact h2
    have h3 := installTo_no_manifests env url path temp (env.instRun url temp path fs)
      hnew h1b h2b
    rw [hidem] at h3
    exact h3
  rcases hd with rfl | rfl
  · exact ⟨key, key2⟩
  · exact ⟨key, key2⟩

/-- Witness for C7: a destination with one unrelated file and no manifests. -/
theorem c7_no_manifests_noop_and_idempotent_witness :
    VersionDiff.install_to_by stubEnv
        (VersionDiff.NotInstalled ⟨1, 1, 0⟩ "u" 5 9 none) "dest" none ⟨[("dest/a.txt", "x")]⟩
      = TxResult.ok (stubEnv.instRun "u" none "dest" ⟨[("dest/a.txt", "x")]⟩)
  ∧ (stubEnv.instRun "u" none "dest" (stubEnv.instRun "u" none "dest" ⟨[("dest/a.txt", "x")]⟩)
        = stubEnv.instRun "u" none "dest" ⟨[("dest/a.txt", "x")]⟩ →
      VersionDiff.install_to_by stubEnv (VersionDiff.NotInstalled ⟨1, 1, 0⟩ "u" 5 9 none)
          "dest" none (stubEnv.instRun "u" none "dest" ⟨[("dest/a.txt", "x")]⟩)
        = TxResult.ok (stubEnv.instRun "u" none "dest" ⟨[("dest/a.txt", "x")]⟩)) :=
  c7_no_manifests_noop_and_idempotent stubEnv _ "dest" none ⟨[("dest/a.txt", "x")]⟩
    ⟨1, 0, 0⟩ ⟨1, 1, 0⟩ "u" 5 9 none (Or.inr rfl) rfl (by decide) (by decide)

end AnimeGameCore
